import Mathlib

/-!
Shallow embedding of the Auto-Grader grading core
(src/grading/nlp_utils.py and src/grading/grading_engine.py).

Python strings are modelled as lists of Unicode code points (PyStr := List Nat);
Python float / Decimal arithmetic is modelled exactly over ℚ.  The two external
numeric collaborators that the engine calls — sklearn cosine similarity and the
iteration order of a CPython set of strings — are passed as explicit parameters
(an oracle function each), since their values are produced outside the
repository code.  Everything else is translated line by line from the source.
-/

namespace AutoGrader

/-- A Python string: its sequence of Unicode code points. -/
abbrev PyStr := List Nat

/-- Code points of a Lean string literal (used to transcribe Python literals). -/
def strToCodes (s : String) : PyStr := s.toList.map Char.toNat

/-- Python whitespace for str.split / str.strip (ASCII part: tab, LF, VT, FF, CR, space). -/
def isSpace (c : Nat) : Bool :=
  c == 9 || c == 10 || c == 11 || c == 12 || c == 13 || c == 32

/-- Membership in Python string.punctuation, the fixed ASCII set
!"#$%&()*+,-./:;<=>?@[\]^_\x7b|\x7d~ and apostrophe and backtick:
exactly the code points 33-47, 58-64, 91-96, 123-126. -/
def isPunct (c : Nat) : Bool :=
  (decide (33 ≤ c) && decide (c ≤ 47)) || (decide (58 ≤ c) && decide (c ≤ 64)) ||
  (decide (91 ≤ c) && decide (c ≤ 96)) || (decide (123 ≤ c) && decide (c ≤ 126))

/-- Python str.lower on a code point (ASCII range, the range exercised here). -/
def lowerC (c : Nat) : Nat := if 65 ≤ c ∧ c ≤ 90 then c + 32 else c

/-- Python str.upper on a code point (ASCII range, the range exercised here). -/
def upperC (c : Nat) : Nat := if 97 ≤ c ∧ c ≤ 122 then c - 32 else c

/-- Code point of the apostrophe (several stopwords contain it). -/
def apos : Nat := 39

/-- The STOPWORDS set of nlp_utils.py (a Python set of strings; modelled as the
list of its elements in source order, membership being what matters). -/
def STOPWORDS : List PyStr :=
  [strToCodes "i", strToCodes "me", strToCodes "my", strToCodes "myself",
   strToCodes "we", strToCodes "our", strToCodes "ours", strToCodes "ourselves",
   strToCodes "you",
   strToCodes "you" ++ [apos] ++ strToCodes "re",
   strToCodes "you" ++ [apos] ++ strToCodes "ve",
   strToCodes "you" ++ [apos] ++ strToCodes "ll",
   strToCodes "you" ++ [apos] ++ strToCodes "d",
   strToCodes "your", strToCodes "yours", strToCodes "yourself",
   strToCodes "yourselves", strToCodes "he", strToCodes "him", strToCodes "his",
   strToCodes "himself", strToCodes "she",
   strToCodes "she" ++ [apos] ++ strToCodes "s",
   strToCodes "her", strToCodes "hers", strToCodes "herself", strToCodes "it",
   strToCodes "it" ++ [apos] ++ strToCodes "s",
   strToCodes "its", strToCodes "itself", strToCodes "they", strToCodes "them",
   strToCodes "their", strToCodes "theirs", strToCodes "themselves",
   strToCodes "what", strToCodes "which", strToCodes "who", strToCodes "whom",
   strToCodes "this", strToCodes "that",
   strToCodes "that" ++ [apos] ++ strToCodes "ll",
   strToCodes "these", strToCodes "those", strToCodes "am", strToCodes "is",
   strToCodes "are", strToCodes "was", strToCodes "were", strToCodes "be",
   strToCodes "been", strToCodes "being", strToCodes "have", strToCodes "has",
   strToCodes "had", strToCodes "having", strToCodes "do", strToCodes "does",
   strToCodes "did", strToCodes "doing", strToCodes "a", strToCodes "an",
   strToCodes "the", strToCodes "and", strToCodes "but", strToCodes "if",
   strToCodes "or", strToCodes "because", strToCodes "as", strToCodes "until",
   strToCodes "while", strToCodes "of", strToCodes "at", strToCodes "by",
   strToCodes "for", strToCodes "with", strToCodes "about", strToCodes "against",
   strToCodes "between", strToCodes "into", strToCodes "through",
   strToCodes "during", strToCodes "before", strToCodes "after",
   strToCodes "above", strToCodes "below", strToCodes "to", strToCodes "from",
   strToCodes "up", strToCodes "down", strToCodes "in", strToCodes "out",
   strToCodes "on", strToCodes "off", strToCodes "over", strToCodes "under",
   strToCodes "again", strToCodes "further", strToCodes "then", strToCodes "once"]

/-- Python membership test w in STOPWORDS. -/
def isStop (w : PyStr) : Bool := STOPWORDS.contains w

/-- Python str.strip(): drop leading and trailing whitespace. -/
def pyStrip (l : PyStr) : PyStr :=
  ((l.dropWhile isSpace).reverse.dropWhile isSpace).reverse

/-- Fuel-indexed worker for pySplit (structural recursion on the fuel, so
that the kernel can evaluate it; the fuel never runs out when it starts at
the length of the list). -/
def pySplitF : Nat → PyStr → List PyStr
  | _, [] => []
  | 0, _ :: _ => []
  | fuel + 1, c :: cs =>
    if isSpace c then pySplitF fuel cs
    else (c :: cs.takeWhile (fun d => !isSpace d)) ::
         pySplitF fuel (cs.dropWhile (fun d => !isSpace d))

/-- Python str.split() with no separator: maximal runs of non-whitespace
characters, leading/trailing/repeated whitespace producing no empty pieces. -/
def pySplit (l : PyStr) : List PyStr := pySplitF l.length l

/-- Python " ".join(ws): words joined by a single space (code point 32). -/
def joinSp : List PyStr → PyStr
  | [] => []
  | [w] => w
  | w :: ws => w ++ 32 :: joinSp ws

/-- nlp_utils.preprocess_text: lowercase, strip string.punctuation, collapse
whitespace via " ".join(text.split()), then optionally drop stopword tokens. -/
def preprocess_text (text : PyStr) (removeStopwords : Bool := true) : PyStr :=
  if text = [] then []
  else
    let t1 := text.map lowerC
    let t2 := t1.filter (fun c => !isPunct c)
    let t3 := joinSp (pySplit t2)
    if removeStopwords then joinSp ((pySplit t3).filter (fun w => !isStop w))
    else t3

/-- nlp_utils.tokenize: preprocess_text(text).split(). -/
def tokenize (text : PyStr) : List PyStr := pySplit (preprocess_text text)

/-- Fuel-indexed worker for lev2 (structural recursion on the fuel so the
kernel can evaluate it; fuel length a + length b always suffices). -/
def lev2F : Nat → PyStr → PyStr → Nat
  | _, [], b => b.length
  | _, a, [] => a.length
  | 0, _ :: _, _ :: _ => 0
  | fuel + 1, x :: a, y :: b =>
    if x = y then lev2F fuel a b
    else min (lev2F fuel a (y :: b) + 1)
      (min (lev2F fuel (x :: a) b + 1) (lev2F fuel a b + 2))

/-- Modelled from the Levenshtein library (a third-party dependency, not
repository code): the edit distance with insertion/deletion cost 1 and
substitution cost 2, which is the distance underlying Levenshtein.ratio. -/
def lev2 (a b : PyStr) : Nat := lev2F (a.length + b.length) a b

/-- nlp_utils.calculate_levenshtein_similarity, i.e. Levenshtein.ratio:
(lensum - dist) / lensum with the substitution-cost-2 distance, and 1.0 for
two empty strings. -/
def calculate_levenshtein_similarity (a b : PyStr) : ℚ :=
  if a.length + b.length = 0 then 1
  else ((a.length + b.length : ℚ) - lev2 a b) / (a.length + b.length)

/-- Python substring containment needle in hay. -/
def pyIn (needle hay : PyStr) : Bool :=
  (List.range (hay.length + 1)).any (fun i => (hay.drop i).take needle.length == needle)

/-- The inner fuzzy-match loop of calculate_keyword_match: scan the student
words in their (set-)iteration order and, at the first word whose similarity
to the keyword reaches 0.8, add weight * similarity and break. -/
def fuzzyContrib (kc : PyStr) (order : List PyStr) (w : ℚ) : ℚ :=
  match order with
  | [] => 0
  | sw :: rest =>
    if (4 : ℚ)/5 ≤ calculate_levenshtein_similarity kc sw then
      w * calculate_levenshtein_similarity kc sw
    else fuzzyContrib kc rest w

/-- One iteration of the keyword loop of calculate_keyword_match: full weight
on an exact (substring) match of the preprocessed keyword, otherwise the fuzzy
loop over the student words. -/
def kwContrib (student_text : PyStr) (order : List PyStr) (keyword : PyStr) (w : ℚ) : ℚ :=
  let kc := preprocess_text keyword
  if pyIn kc student_text then w else fuzzyContrib kc order w

/-- nlp_utils.calculate_keyword_match.  The Python code iterates
set(student_text.split()); the iteration order of that set is implementation
noise, so it is passed in as the oracle wordOrder, mapping the token list to
the order in which CPython enumerates the corresponding set. -/
def calculate_keyword_match (student_answer : PyStr) (keywords : List PyStr)
    (weights : Option (List ℚ)) (wordOrder : List PyStr → List PyStr) : ℚ :=
  if keywords = [] ∨ student_answer = [] then 0
  else
    let student_text := preprocess_text student_answer
    let student_words := wordOrder (pySplit student_text)
    let ws := match weights with
      | none => List.replicate keywords.length ((1 : ℚ) / keywords.length)
      | some ws => ws
    if ws.sum = 0 then 0
    else
      let wn := ws.map (fun w => w / ws.sum)
      let score := ((keywords.zip wn).map
        (fun p => kwContrib student_text student_words p.1 p.2)).sum
      min score 1

/-- nlp_utils.bayesian_inference: fixed-weight evidence 0.6/0.4, then the
posterior (evidence * prior) / (evidence * prior + (1 - evidence) * (1 - prior)),
with 0 when that denominator is 0. -/
def bayesian_inference (keyword_score similarity_score : ℚ)
    (prior_probability : ℚ := 1/2) : ℚ :=
  let evidence_score := keyword_score * (6/10) + similarity_score * (4/10)
  let p_evidence_given_correct := evidence_score
  let p_evidence_given_incorrect := 1 - evidence_score
  let p_correct := prior_probability
  let p_incorrect := 1 - prior_probability
  let p_evidence := p_evidence_given_correct * p_correct +
    p_evidence_given_incorrect * p_incorrect
  if p_evidence = 0 then 0
  else (p_evidence_given_correct * p_correct) / p_evidence

/-! ## Grading engine (src/grading/grading_engine.py) -/

/-- The outcome category recorded in the grading-details record: is_correct
true/false for MCQ, marks_category for free text, and the dedicated
error-record of the unknown-type branch. -/
inductive Category where
  | correct
  | incorrect
  | noAnswer
  | fullMarks
  | partialMarks
  | noMarks
  | unknownType
deriving DecidableEq

/-- Question.answer_key, a JSON object: each field read with .get and a
default, so every field is optional. -/
structure AnswerKey where
  correct_answer : Option PyStr := none
  keywords : Option (List PyStr) := none
  weights : Option (List ℚ) := none
  expected_answer : Option PyStr := none
deriving DecidableEq

/-- exams.models.Question, the fields the engine reads: marks is an
IntegerField (validated ≥ 1), question_type a free-form string column. -/
structure Question where
  id : Nat
  question_number : Int
  question_type : PyStr
  marks : Nat
  answer_key : AnswerKey
deriving DecidableEq

/-- grading.models.ProbabilisticGradingConfig: three Decimal thresholds and
three feature toggles (model defaults 0.70 / 0.40 / 0.70 and all-true). -/
structure ProbabilisticGradingConfig where
  full_marks_threshold : ℚ := 7/10
  partial_marks_threshold : ℚ := 4/10
  partial_marks_percentage : ℚ := 7/10
  use_keyword_matching : Bool := true
  use_similarity_scoring : Bool := true
  use_bayesian_inference : Bool := true
deriving DecidableEq

/-- The "Default" configuration created by grade_short_answer when none is
passed: thresholds 0.70 / 0.40 and fraction 0.70, toggles at model default. -/
def defaultConfig : ProbabilisticGradingConfig := {}

/-- Question type literals of exams.models.Question.QUESTION_TYPES. -/
def QT_MCQ : PyStr := strToCodes "MCQ"

/-- Question type literal SHORT. -/
def QT_SHORT : PyStr := strToCodes "SHORT"

/-- Question type literal LONG. -/
def QT_LONG : PyStr := strToCodes "LONG"

/-- grading_engine.grade_mcq: case-insensitive (strip then upper) equality of
the submission with the correct_answer of the answer key (defaulted to the empty
string); full marks on equality, else zero. -/
def grade_mcq (question : Question) (student_answer : PyStr) : ℚ × Category :=
  let correct_answer := question.answer_key.correct_answer.getD []
  if (pyStrip student_answer).map upperC = (pyStrip correct_answer).map upperC then
    ((question.marks : ℚ), Category.correct)
  else (0, Category.incorrect)

/-- Lines 98-115 of grading_engine.grade_short_answer: the keyword score (if
enabled and keywords present), the similarity score (if enabled and an
expected answer is present; the sklearn TF-IDF cosine is the external oracle
cosineSim), and their fusion into the confidence. -/
def short_answer_confidence (cosineSim : PyStr → PyStr → ℚ)
    (wordOrder : List PyStr → List PyStr) (question : Question)
    (student_answer : PyStr) (config : ProbabilisticGradingConfig) : ℚ :=
  let keywords := question.answer_key.keywords.getD []
  let expected_answer := question.answer_key.expected_answer.getD []
  let keyword_score :=
    if config.use_keyword_matching ∧ keywords ≠ [] then
      calculate_keyword_match student_answer keywords question.answer_key.weights wordOrder
    else 0
  let similarity_score :=
    if config.use_similarity_scoring ∧ expected_answer ≠ [] then
      cosineSim student_answer expected_answer
    else 0
  if config.use_bayesian_inference then
    bayesian_inference keyword_score similarity_score
  else (keyword_score + similarity_score) / 2

/-- grading_engine.grade_short_answer: empty or whitespace-only submission is
no_answer with zero marks; otherwise the confidence is banded against the two
thresholds (full marks / marks * partial fraction / zero). -/
def grade_short_answer (cosineSim : PyStr → PyStr → ℚ)
    (wordOrder : List PyStr → List PyStr) (question : Question)
    (student_answer : PyStr) (config : ProbabilisticGradingConfig) : ℚ × Category :=
  if student_answer = [] ∨ pyStrip student_answer = [] then (0, Category.noAnswer)
  else
    let confidence := short_answer_confidence cosineSim wordOrder question student_answer config
    if config.full_marks_threshold ≤ confidence then
      ((question.marks : ℚ), Category.fullMarks)
    else if config.partial_marks_threshold ≤ confidence then
      ((question.marks : ℚ) * config.partial_marks_percentage, Category.partialMarks)
    else (0, Category.noMarks)

/-- grading_engine.grade_long_answer: delegates to grade_short_answer. -/
def grade_long_answer (cosineSim : PyStr → PyStr → ℚ)
    (wordOrder : List PyStr → List PyStr) (question : Question)
    (student_answer : PyStr) (config : ProbabilisticGradingConfig) : ℚ × Category :=
  grade_short_answer cosineSim wordOrder question student_answer config

/-- grading_engine.grade_question: dispatch on the question_type string, with
the dedicated zero-marks error outcome for any unknown type. -/
def grade_question (cosineSim : PyStr → PyStr → ℚ)
    (wordOrder : List PyStr → List PyStr) (question : Question)
    (student_answer : PyStr) (config : ProbabilisticGradingConfig) : ℚ × Category :=
  if question.question_type = QT_MCQ then grade_mcq question student_answer
  else if question.question_type = QT_SHORT then
    grade_short_answer cosineSim wordOrder question student_answer config
  else if question.question_type = QT_LONG then
    grade_long_answer cosineSim wordOrder question student_answer config
  else (0, Category.unknownType)

/-- One entry of the grading_results list built by grade_answer_sheet. -/
structure QuestionResultEntry where
  question_id : Nat
  question_number : Int
  marks_obtained : ℚ
  full_marks : Nat
  category : Category
deriving DecidableEq

/-- The aggregate record returned by grade_answer_sheet (the persisted Result
row and timestamps are external collaborators and not modelled). -/
structure SheetResult where
  total_marks_obtained : ℚ
  full_marks : ℚ
  percentage : ℚ
  grading_details : List QuestionResultEntry
deriving DecidableEq

/-- answer_sheet.submitted_answers.get(str(question.id), ""): lookup in the
JSON mapping, modelled as an association list keyed by question id. -/
def lookup_submitted (submitted : List (Nat × PyStr)) (qid : Nat) : PyStr :=
  ((submitted.find? (fun p => p.1 == qid)).map Prod.snd).getD []

/-- grading_engine.grade_answer_sheet over the question list of the exam (the
queryset ordered by question_number): grade every question against the
submitted answer, accumulate obtained and full marks, and compute the
percentage (0 when no marks are possible). -/
def grade_answer_sheet (cosineSim : PyStr → PyStr → ℚ)
    (wordOrder : List PyStr → List PyStr) (questions : List Question)
    (submitted : List (Nat × PyStr)) (config : ProbabilisticGradingConfig) :
    SheetResult :=
  let graded := questions.map (fun q =>
    let ans := lookup_submitted submitted q.id
    let r := grade_question cosineSim wordOrder q ans config
    QuestionResultEntry.mk q.id q.question_number r.1 q.marks r.2)
  let total := (graded.map (fun e => e.marks_obtained)).sum
  let full := (questions.map (fun q => (q.marks : ℚ))).sum
  { total_marks_obtained := total
    full_marks := full
    percentage := if 0 < full then total / full * 100 else 0
    grading_details := graded }

/-! ## Demo inputs used by witness theorems -/

/-- The everywhere-zero cosine-similarity oracle (similarity disabled paths). -/
def zeroSim : PyStr → PyStr → ℚ := fun _ _ => 0

/-- The identity set-iteration-order oracle. -/
def idOrder : List PyStr → List PyStr := fun l => l

/-- Scenario A question: an MCQ worth 5 with correct answer "A". -/
def demoMCQ : Question :=
  ⟨1, 1, QT_MCQ, 5, { correct_answer := some (strToCodes "A") }⟩

/-- A short-answer question worth 10 whose single keyword is "x". -/
def demoShort : Question :=
  ⟨3, 3, QT_SHORT, 10, { keywords := some [strToCodes "x"] }⟩

/-- A question with an unrecognised type string. -/
def demoEssay : Question := ⟨7, 7, strToCodes "ESSAY", 4, {}⟩

/-- A configuration with similarity scoring switched off. -/
def cfgNoSim : ProbabilisticGradingConfig := { use_similarity_scoring := false }

/-! ## Helper lemmas about the text layer -/

theorem lowerC_idem (c : Nat) : lowerC (lowerC c) = lowerC c := by
  unfold lowerC
  split
  · rw [if_neg]; omega
  · rfl

theorem map_id_of_mem {α : Type} {f : α → α} :
    ∀ {l : List α}, (∀ a ∈ l, f a = a) → l.map f = l
  | [], _ => rfl
  | a :: t, h => by
    simp only [List.map_cons, h a (List.mem_cons_self a t),
      map_id_of_mem (fun b hb => h b (List.mem_cons_of_mem a hb))]

theorem takeWhile_all {α : Type} {p : α → Bool} :
    ∀ {xs : List α}, (∀ c ∈ xs, p c = true) →
      xs.takeWhile p = xs ∧ xs.dropWhile p = []
  | [], _ => ⟨rfl, rfl⟩
  | a :: t, h => by
    have ha := h a (List.mem_cons_self a t)
    have ht := takeWhile_all (fun b hb => h b (List.mem_cons_of_mem a hb))
    simp [List.takeWhile_cons, List.dropWhile_cons, ha, ht.1, ht.2]

theorem takeWhile_all_append {α : Type} {p : α → Bool} {y : α} (r : List α) :
    ∀ {xs : List α}, (∀ c ∈ xs, p c = true) → p y = false →
      (xs ++ y :: r).takeWhile p = xs ∧ (xs ++ y :: r).dropWhile p = y :: r
  | [], _, hy => by simp [List.takeWhile_cons, List.dropWhile_cons, hy]
  | a :: t, h, hy => by
    have ha := h a (List.mem_cons_self a t)
    have ht := takeWhile_all_append r (fun b hb => h b (List.mem_cons_of_mem a hb)) hy
    simp [List.takeWhile_cons, List.dropWhile_cons, ha, ht.1, ht.2]

theorem length_dropWhile_le {α : Type} (p : α → Bool) (l : List α) :
    (l.dropWhile p).length ≤ l.length := by
  induction l with
  | nil => simp
  | cons a t ih =>
    rw [List.dropWhile_cons]
    split
    · exact le_trans ih (Nat.le_succ _)
    · exact le_refl _

theorem pySplitF_irrel :
    ∀ (f1 : Nat) (l : PyStr) (f2 : Nat), l.length ≤ f1 → l.length ≤ f2 →
      pySplitF f1 l = pySplitF f2 l := by
  intro f1
  induction f1 with
  | zero =>
    intro l f2 h1 _
    have : l = [] := List.eq_nil_of_length_eq_zero (Nat.le_zero.mp h1)
    subst this
    cases f2 <;> rfl
  | succ f ih =>
    intro l f2 h1 h2
    cases l with
    | nil => cases f2 <;> rfl
    | cons c cs =>
      cases f2 with
      | zero => simp at h2
      | succ f2 =>
        rw [pySplitF, pySplitF]
        have h1' : cs.length ≤ f := by simpa using h1
        have h2' : cs.length ≤ f2 := by simpa using h2
        by_cases hc : isSpace c = true
        · rw [if_pos hc, if_pos hc]
          exact ih cs f2 h1' h2'
        · rw [if_neg hc, if_neg hc]
          have hd := length_dropWhile_le (fun d => !isSpace d) cs
          rw [ih _ f2 (le_trans hd h1') (le_trans hd h2')]

theorem pySplit_cons (c : Nat) (cs : PyStr) :
    pySplit (c :: cs) =
      if isSpace c then pySplit cs
      else (c :: cs.takeWhile (fun d => !isSpace d)) ::
           pySplit (cs.dropWhile (fun d => !isSpace d)) := by
  show pySplitF (c :: cs).length (c :: cs) = _
  rw [List.length_cons, pySplitF]
  by_cases hc : isSpace c = true
  · rw [if_pos hc, if_pos hc]
    rfl
  · rw [if_neg hc, if_neg hc]
    have hd := length_dropWhile_le (fun d => !isSpace d) cs
    rw [pySplitF_irrel cs.length _ _ hd le_rfl]
    rfl

theorem pySplit_words_spec :
    ∀ l : PyStr, ∀ w ∈ pySplit l, w ≠ [] ∧ ∀ c ∈ w, isSpace c = false := by
  have main : ∀ (f : Nat) (l : PyStr), ∀ w ∈ pySplitF f l,
      w ≠ [] ∧ ∀ c ∈ w, isSpace c = false := by
    intro f
    induction f with
    | zero => intro l w hw; cases l <;> simp [pySplitF] at hw
    | succ f ih =>
      intro l w hw
      cases l with
      | nil => simp [pySplitF] at hw
      | cons c cs =>
        rw [pySplitF] at hw
        by_cases hc : isSpace c = true
        · rw [if_pos hc] at hw
          exact ih cs w hw
        · rw [if_neg hc] at hw
          rcases List.mem_cons.mp hw with h | h
          · subst h
            refine ⟨List.cons_ne_nil _ _, ?_⟩
            intro d hd
            rcases List.mem_cons.mp hd with h | h
            · subst h; exact Bool.eq_false_iff.mpr hc
            · have := List.mem_takeWhile_imp h
              simpa using this
          · exact ih _ w h
  exact fun l => main l.length l

theorem pySplit_words_subset :
    ∀ l : PyStr, ∀ w ∈ pySplit l, ∀ c ∈ w, c ∈ l := by
  have main : ∀ (f : Nat) (l : PyStr), ∀ w ∈ pySplitF f l, ∀ c ∈ w, c ∈ l := by
    intro f
    induction f with
    | zero => intro l w hw; cases l <;> simp [pySplitF] at hw
    | succ f ih =>
      intro l w hw d hd
      cases l with
      | nil => simp [pySplitF] at hw
      | cons c cs =>
        rw [pySplitF] at hw
        by_cases hc : isSpace c = true
        · rw [if_pos hc] at hw
          exact List.mem_cons_of_mem c (ih cs w hw d hd)
        · rw [if_neg hc] at hw
          rcases List.mem_cons.mp hw with h | h
          · subst h
            rcases List.mem_cons.mp hd with h | h
            · subst h; exact List.mem_cons_self d cs
            · exact List.mem_cons_of_mem c ((List.takeWhile_sublist _).subset h)
          · exact List.mem_cons_of_mem c
              ((List.dropWhile_sublist _).subset (ih _ w h d hd))
  exact fun l => main l.length l

theorem joinSp_mem :
    ∀ {ws : List PyStr} {c : Nat}, c ∈ joinSp ws → c = 32 ∨ ∃ w ∈ ws, c ∈ w := by
  intro ws
  induction ws with
  | nil => intro c hc; simp [joinSp] at hc
  | cons w ws ih =>
    intro c hc
    cases ws with
    | nil =>
      right; exact ⟨w, List.mem_cons_self w [], hc⟩
    | cons x t =>
      rw [joinSp] at hc
      case x_1 => simp
      rcases List.mem_append.mp hc with h | h
      · right; exact ⟨w, List.mem_cons_self w _, h⟩
      · rcases List.mem_cons.mp h with h | h
        · left; exact h
        · rcases ih h with h | ⟨u, hu, hcu⟩
          · left; exact h
          · right; exact ⟨u, List.mem_cons_of_mem w hu, hcu⟩

theorem pySplit_word_append {w : PyStr} (hw : w ≠ [])
    (hs : ∀ c ∈ w, isSpace c = false) (r : PyStr) :
    pySplit (w ++ 32 :: r) = w :: pySplit r := by
  cases w with
  | nil => exact absurd rfl hw
  | cons c cs =>
    have hc : isSpace c = false := hs c (List.mem_cons_self c cs)
    have hcs : ∀ d ∈ cs, (fun d => !isSpace d) d = true := by
      intro d hd
      simp [hs d (List.mem_cons_of_mem c hd)]
    have h32 : (fun d => !isSpace d) 32 = false := by decide
    have happ := takeWhile_all_append (p := fun d => !isSpace d) r hcs h32
    rw [List.cons_append, pySplit_cons, if_neg (by simp [hc]), happ.1, happ.2]
    rw [pySplit_cons, if_pos (by decide)]

theorem pySplit_single {w : PyStr} (hw : w ≠ [])
    (hs : ∀ c ∈ w, isSpace c = false) : pySplit w = [w] := by
  cases w with
  | nil => exact absurd rfl hw
  | cons c cs =>
    have hc : isSpace c = false := hs c (List.mem_cons_self c cs)
    have hcs : ∀ d ∈ cs, (fun d => !isSpace d) d = true := by
      intro d hd
      simp [hs d (List.mem_cons_of_mem c hd)]
    have hall := takeWhile_all (p := fun d => !isSpace d) hcs
    rw [pySplit_cons, if_neg (by simp [hc]), hall.1, hall.2]
    rfl

theorem pySplit_joinSp :
    ∀ {ws : List PyStr},
      (∀ w ∈ ws, w ≠ [] ∧ ∀ c ∈ w, isSpace c = false) →
      pySplit (joinSp ws) = ws := by
  intro ws
  induction ws with
  | nil => intro _; rfl
  | cons w t ih =>
    intro h
    have hw := h w (List.mem_cons_self w t)
    cases t with
    | nil => exact pySplit_single hw.1 hw.2
    | cons x s =>
      rw [joinSp]
      case x_1 => simp
      rw [pySplit_word_append hw.1 hw.2]
      rw [ih (fun u hu => h u (List.mem_cons_of_mem w hu))]

theorem preprocess_text_eq (x : PyStr) (hx : x ≠ []) :
    preprocess_text x =
      joinSp ((pySplit (joinSp (pySplit ((x.map lowerC).filter (fun c => !isPunct c))))).filter
        (fun w => !isStop w)) := by
  rw [preprocess_text, if_neg hx]
  rfl

/-- C7: text normalization is idempotent: for every input string (including
the empty one), preprocess_text (preprocess_text x) = preprocess_text x,
where preprocess_text lowercases, strips the fixed ASCII punctuation set,
collapses internal whitespace to single spaces, and removes stopwords. -/
theorem preprocess_text_idempotent (x : PyStr) :
    preprocess_text (preprocess_text x) = preprocess_text x := by
  by_cases hx : x = []
  · subst hx; simp [preprocess_text]
  · set t2 := (x.map lowerC).filter (fun c => !isPunct c) with ht2
    have hspec := pySplit_words_spec t2
    have hRT : pySplit (joinSp (pySplit t2)) = pySplit t2 := pySplit_joinSp hspec
    have hy : preprocess_text x = joinSp ((pySplit t2).filter (fun w => !isStop w)) := by
      rw [preprocess_text_eq x hx, hRT]
    set W2 := (pySplit t2).filter (fun w => !isStop w) with hW2def
    have hW2mem : ∀ w ∈ W2, w ∈ pySplit t2 ∧ isStop w = false := by
      intro w hw
      have h := List.mem_filter.mp hw
      exact ⟨h.1, by simpa using h.2⟩
    have hW2spec : ∀ w ∈ W2, w ≠ [] ∧ ∀ c ∈ w, isSpace c = false :=
      fun w hw => hspec w (hW2mem w hw).1
    have hchar : ∀ c ∈ joinSp W2, lowerC c = c ∧ isPunct c = false := by
      intro c hc
      rcases joinSp_mem hc with h32 | ⟨w, hw, hcw⟩
      · subst h32; exact ⟨by decide, by decide⟩
      · have hct2 : c ∈ t2 := pySplit_words_subset t2 w (hW2mem w hw).1 c hcw
        have h := List.mem_filter.mp hct2
        refine ⟨?_, by simpa using h.2⟩
        rcases List.mem_map.mp h.1 with ⟨d, _, hd⟩
        rw [← hd]; exact lowerC_idem d
    rw [hy]
    by_cases hy0 : joinSp W2 = []
    · rw [hy0]; simp [preprocess_text]
    · rw [preprocess_text_eq _ hy0]
      have h1 : (joinSp W2).map lowerC = joinSp W2 :=
        map_id_of_mem (fun c hc => (hchar c hc).1)
      have h2 : (joinSp W2).filter (fun c => !isPunct c) = joinSp W2 := by
        rw [List.filter_eq_self]
        intro c hc; simpa using (hchar c hc).2
      have h3 : pySplit (joinSp W2) = W2 := pySplit_joinSp hW2spec
      have h5 : W2.filter (fun w => !isStop w) = W2 := by
        rw [List.filter_eq_self]
        intro w hw; simpa using (hW2mem w hw).2
      rw [h1, h2, h3, h3, h5]

/-- C6: for keyword and similarity scores in the unit interval, the Bayesian
fusion at prior 0.5 equals the weighted evidence 0.6 k + 0.4 s itself, hence
fuse(s, s, 0.5) = s; and whenever the posterior denominator vanishes the
function returns 0. -/
theorem bayesian_inference_prior_half (k s p : ℚ)
    (hk0 : 0 ≤ k) (hk1 : k ≤ 1) (hs0 : 0 ≤ s) (hs1 : s ≤ 1) :
    bayesian_inference k s (1/2) = k * (6/10) + s * (4/10) ∧
    bayesian_inference s s (1/2) = s ∧
    ((k * (6/10) + s * (4/10)) * p +
        (1 - (k * (6/10) + s * (4/10))) * (1 - p) = 0 →
      bayesian_inference k s p = 0) := by
  refine ⟨?_, ?_, ?_⟩
  · rw [bayesian_inference]
    have hden : (k * (6/10) + s * (4/10)) * (1/2) +
        (1 - (k * (6/10) + s * (4/10))) * (1 - 1/2) ≠ 0 := by
      intro h
      nlinarith [h]
    rw [if_neg hden]
    field_simp
    ring
  · rw [bayesian_inference]
    have hden : (s * (6/10) + s * (4/10)) * (1/2) +
        (1 - (s * (6/10) + s * (4/10))) * (1 - 1/2) ≠ 0 := by
      intro h
      nlinarith [h]
    rw [if_neg hden]
    field_simp
    ring
  · intro h
    rw [bayesian_inference, if_pos h]

/-- Witness for C6 at concrete scores 1/2 and 1/4. -/
theorem bayesian_inference_prior_half_witness :
    bayesian_inference (1/2) (1/4) (1/2) = (1/2) * (6/10) + (1/4) * (4/10) :=
  (bayesian_inference_prior_half (1/2) (1/4) (1/2) (by norm_num) (by norm_num)
    (by norm_num) (by norm_num)).1

/-- C2: grade_mcq awards full marks with category correct exactly when the
submission equals the correctAnswer of the answer key after whitespace trimming
and (upper-)case folding, and zero with category incorrect otherwise; the
MCQ branch of grade_question invokes no probabilistic machinery — its result
is that of grade_mcq for every similarity oracle, word order and config. -/
theorem grade_mcq_trim_casefold (q : Question) (ans : PyStr)
    (cos : PyStr → PyStr → ℚ) (wo : List PyStr → List PyStr)
    (cfg : ProbabilisticGradingConfig) :
    ((pyStrip ans).map upperC =
        (pyStrip (q.answer_key.correct_answer.getD [])).map upperC →
      grade_mcq q ans = ((q.marks : ℚ), Category.correct)) ∧
    ((pyStrip ans).map upperC ≠
        (pyStrip (q.answer_key.correct_answer.getD [])).map upperC →
      grade_mcq q ans = (0, Category.incorrect)) ∧
    (q.question_type = QT_MCQ →
      grade_question cos wo q ans cfg = grade_mcq q ans) := by
  refine ⟨fun h => ?_, fun h => ?_, fun h => ?_⟩
  · rw [grade_mcq, if_pos h]
  · rw [grade_mcq, if_neg h]
  · rw [grade_question, if_pos h]

/-- Witness for C2: Scenario A — ExactChoice, marksValue 5, correctAnswer "A",
submission " a " yields 5 marks and category correct. -/
theorem grade_mcq_trim_casefold_witness :
    grade_mcq demoMCQ (strToCodes " a ") = (5, Category.correct) := by
  have h := (grade_mcq_trim_casefold demoMCQ (strToCodes " a ")
    zeroSim idOrder defaultConfig).1 (by decide)
  rw [h]
  norm_num [demoMCQ]

/-- C3 (failing input): an MCQ whose answer key lacks correct_answer defaults
the key to the empty string, and a blank submission then compares equal to
it — the code awards full marks with category correct, not the natural
low/zero score. -/
theorem grade_mcq_missing_key_full_marks :
    grade_mcq ⟨1, 1, QT_MCQ, 5, {}⟩ [] = (5, Category.correct) ∧
    grade_mcq ⟨1, 1, QT_MCQ, 5, {}⟩ (strToCodes " ") = (5, Category.correct) ∧
    (5 : ℚ) ≠ 0 := by
  refine ⟨?_, ?_, by norm_num⟩ <;> · rw [grade_mcq, if_pos (by decide)]; norm_num

theorem kwMatch_single_none (ans kw : PyStr) (wo : List PyStr → List PyStr)
    (h : ans ≠ []) :
    calculate_keyword_match ans [kw] none wo =
      min (kwContrib (preprocess_text ans)
        (wo (pySplit (preprocess_text ans))) kw 1) 1 := by
  rw [calculate_keyword_match, if_neg (by simp [h])]
  norm_num

theorem short_conf_demo :
    short_answer_confidence zeroSim idOrder demoShort (strToCodes "x") cfgNoSim = 3/5 := by
  have hkw : calculate_keyword_match (strToCodes "x") [strToCodes "x"] none idOrder = 1 := by
    rw [kwMatch_single_none _ _ _ (by decide), kwContrib, if_pos (by decide)]
    norm_num
  rw [short_answer_confidence]
  norm_num [demoShort, cfgNoSim, hkw, bayesian_inference]

/-- C5: grading a question whose type is none of MCQ, SHORT, LONG yields zero
marks and the dedicated unknown-type outcome, and sheet grading still grades
and aggregates every question of the sheet (one result entry per question,
totals summed over all of them — no abort). -/
theorem grade_question_unknown_type (cos : PyStr → PyStr → ℚ)
    (wo : List PyStr → List PyStr) (cfg : ProbabilisticGradingConfig)
    (q : Question) (ans : PyStr) (questions : List Question)
    (submitted : List (Nat × PyStr)) :
    (q.question_type ≠ QT_MCQ → q.question_type ≠ QT_SHORT →
      q.question_type ≠ QT_LONG →
      grade_question cos wo q ans cfg = (0, Category.unknownType)) ∧
    ((grade_answer_sheet cos wo questions submitted cfg).grading_details.length =
      questions.length) ∧
    ((grade_answer_sheet cos wo questions submitted cfg).total_marks_obtained =
      (questions.map (fun q' =>
        (grade_question cos wo q' (lookup_submitted submitted q'.id) cfg).1)).sum) := by
  refine ⟨fun h1 h2 h3 => ?_, ?_, ?_⟩
  · rw [grade_question, if_neg h1, if_neg h2, if_neg h3]
  · simp [grade_answer_sheet]
  · simp only [grade_answer_sheet, List.map_map]
    rfl

/-- Witness for C5: a question typed "ESSAY" gets zero marks and the
unknown-type category. -/
theorem grade_question_unknown_type_witness :
    grade_question zeroSim idOrder demoEssay (strToCodes "hi") defaultConfig =
      (0, Category.unknownType) :=
  (grade_question_unknown_type zeroSim idOrder defaultConfig demoEssay
    (strToCodes "hi") [] []).1 (by decide) (by decide) (by decide)

/-- C1: for ShortAnswer and LongAnswer grading (identical algorithms): a blank
submission yields 0 marks and category no_answer; otherwise the fused
confidence is banded — at least fullMarksThreshold gives marksValue and
full_marks, else at least partialMarksThreshold gives
marksValue * partialMarksFraction and partial_marks, else 0 and no_marks. -/
theorem grade_short_answer_banding (cos : PyStr → PyStr → ℚ)
    (wo : List PyStr → List PyStr) (q : Question) (ans : PyStr)
    (cfg : ProbabilisticGradingConfig) :
    grade_long_answer cos wo q ans cfg = grade_short_answer cos wo q ans cfg ∧
    ((ans = [] ∨ pyStrip ans = []) →
      grade_short_answer cos wo q ans cfg = (0, Category.noAnswer)) ∧
    (¬(ans = [] ∨ pyStrip ans = []) →
      (cfg.full_marks_threshold ≤ short_answer_confidence cos wo q ans cfg →
        grade_short_answer cos wo q ans cfg = ((q.marks : ℚ), Category.fullMarks)) ∧
      (short_answer_confidence cos wo q ans cfg < cfg.full_marks_threshold →
        cfg.partial_marks_threshold ≤ short_answer_confidence cos wo q ans cfg →
        grade_short_answer cos wo q ans cfg =
          ((q.marks : ℚ) * cfg.partial_marks_percentage, Category.partialMarks)) ∧
      (short_answer_confidence cos wo q ans cfg < cfg.full_marks_threshold →
        short_answer_confidence cos wo q ans cfg < cfg.partial_marks_threshold →
        grade_short_answer cos wo q ans cfg = (0, Category.noMarks))) := by
  refine ⟨rfl, fun h => ?_, fun h => ⟨fun hf => ?_, fun hf hp => ?_, fun hf hp => ?_⟩⟩
  · rw [grade_short_answer, if_pos h]
  · rw [grade_short_answer, if_neg h, if_pos hf]
  · rw [grade_short_answer, if_neg h, if_neg (not_le.mpr hf), if_pos hp]
  · rw [grade_short_answer, if_neg h, if_neg (not_le.mpr hf), if_neg (not_le.mpr hp)]

/-- Witness for C1: a blank submission is no_answer with zero marks, and a
keyword-only short answer at confidence 0.6 lands in the partial band
(10 * 0.7 = 7 marks). -/
theorem grade_short_answer_banding_witness :
    grade_short_answer zeroSim idOrder demoShort [] defaultConfig =
      (0, Category.noAnswer) ∧
    grade_short_answer zeroSim idOrder demoShort (strToCodes "x") cfgNoSim =
      (7, Category.partialMarks) := by
  constructor
  · exact (grade_short_answer_banding zeroSim idOrder demoShort [] defaultConfig).2.1
      (Or.inl rfl)
  · have h := ((grade_short_answer_banding zeroSim idOrder demoShort
      (strToCodes "x") cfgNoSim).2.2 (by decide)).2.1
      (by rw [short_conf_demo]; norm_num [cfgNoSim])
      (by rw [short_conf_demo]; norm_num [cfgNoSim])
    rw [h]
    norm_num [demoShort, cfgNoSim, Prod.ext_iff]

theorem pyIn_nil_left (hay : PyStr) : pyIn [] hay = true := by
  rw [pyIn]
  apply List.any_eq_true.mpr
  refine ⟨0, ?_, ?_⟩
  · simp
  · simp

theorem pyIn_nil_right {kc : PyStr} (h : kc ≠ []) : pyIn kc [] = false := by
  cases kc with
  | nil => exact absurd rfl h
  | cons c t => rfl

/-- C10: a keyword whose normalized form is the empty string (for instance
the stopword "the") is counted as an exact substring match for every
non-empty answer: the keyword loop adds its full renormalized weight, and
with a single such keyword and default weights keywordMatch(answer, [kw])
is 1.0 regardless of the content of the answer. -/
theorem empty_keyword_full_weight (ans kw st : PyStr)
    (wo : List PyStr → List PyStr) (ord : List PyStr) (w : ℚ) :
    (ans ≠ [] → preprocess_text kw = [] →
      calculate_keyword_match ans [kw] none wo = 1) ∧
    (preprocess_text kw = [] → kwContrib st ord kw w = w) := by
  have hcontrib : ∀ (st' : PyStr) (ord' : List PyStr) (w' : ℚ),
      preprocess_text kw = [] → kwContrib st' ord' kw w' = w' := by
    intro st' ord' w' hk
    simp only [kwContrib, hk, pyIn_nil_left, if_true]
  refine ⟨fun ha hk => ?_, fun hk => hcontrib st ord w hk⟩
  rw [kwMatch_single_none ans kw wo ha, hcontrib _ _ _ hk]
  norm_num

/-- Witness for C10: keywordMatch("quantum physics", ["the"]) = 1 even though
the answer has nothing to do with the keyword. -/
theorem empty_keyword_full_weight_witness :
    calculate_keyword_match (strToCodes "quantum physics") [strToCodes "the"]
      none idOrder = 1 :=
  (empty_keyword_full_weight (strToCodes "quantum physics") (strToCodes "the")
    [] idOrder [] 0).1 (by decide) (by decide)

theorem sim_abc_ab :
    calculate_levenshtein_similarity (strToCodes "abc") (strToCodes "ab") = 4/5 := by
  rw [calculate_levenshtein_similarity, if_neg (by decide)]
  have h1 : lev2 (strToCodes "abc") (strToCodes "ab") = 1 := by decide
  have h2 : (strToCodes "abc").length = 3 := by decide
  have h3 : (strToCodes "ab").length = 2 := by decide
  rw [h1, h2, h3]
  norm_num

theorem sim_abc_abdc :
    calculate_levenshtein_similarity (strToCodes "abc") (strToCodes "abdc") = 6/7 := by
  rw [calculate_levenshtein_similarity, if_neg (by decide)]
  have h1 : lev2 (strToCodes "abc") (strToCodes "abdc") = 1 := by decide
  have h2 : (strToCodes "abc").length = 3 := by decide
  have h3 : (strToCodes "abdc").length = 4 := by decide
  rw [h1, h2, h3]
  norm_num

theorem sim_abc_xy :
    calculate_levenshtein_similarity (strToCodes "abc") (strToCodes "xy") = 0 := by
  rw [calculate_levenshtein_similarity, if_neg (by decide)]
  have h1 : lev2 (strToCodes "abc") (strToCodes "xy") = 5 := by decide
  have h2 : (strToCodes "abc").length = 3 := by decide
  have h3 : (strToCodes "xy").length = 2 := by decide
  rw [h1, h2, h3]
  norm_num

/-- C4 (counterexample): on answer "ab abdc" with keyword "abc", both token
orders enumerate the same two-element token set, yet the score is 4/5 when
"ab" (similarity 4/5) is met first and 6/7 when "abdc" (similarity 6/7) is
met first: the fuzzy branch takes the first qualifying token of the set
iteration order, not the best one, so keywordMatch is not a function of
answer, keywords and weights alone. -/
theorem keyword_match_order_dependent_cex :
    pySplit (preprocess_text (strToCodes "ab abdc")) =
      [strToCodes "ab", strToCodes "abdc"] ∧
    calculate_keyword_match (strToCodes "ab abdc") [strToCodes "abc"] none
      idOrder = 4/5 ∧
    calculate_keyword_match (strToCodes "ab abdc") [strToCodes "abc"] none
      (fun l => l.reverse) = 6/7 ∧
    calculate_levenshtein_similarity (preprocess_text (strToCodes "abc"))
      (strToCodes "abdc") = 6/7 ∧
    ((4 : ℚ)/5 ≠ 6/7) := by
  have hkc : preprocess_text (strToCodes "abc") = strToCodes "abc" := by decide
  have hst : preprocess_text (strToCodes "ab abdc") = strToCodes "ab abdc" := by
    decide
  have hsplit : pySplit (preprocess_text (strToCodes "ab abdc")) =
      [strToCodes "ab", strToCodes "abdc"] := by decide
  have hpy : pyIn (strToCodes "abc") (strToCodes "ab abdc") = false := by decide
  refine ⟨hsplit, ?_, ?_, by rw [hkc]; exact sim_abc_abdc, by norm_num⟩
  · rw [kwMatch_single_none _ _ _ (by decide), hsplit, hst]
    simp only [kwContrib, hkc, hpy, Bool.false_eq_true, if_false, idOrder]
    rw [fuzzyContrib, sim_abc_ab, if_pos (by norm_num)]
    rw [one_mul]
    exact min_eq_left (by norm_num)
  · rw [kwMatch_single_none _ _ _ (by decide), hsplit, hst]
    simp only [kwContrib, hkc, hpy, Bool.false_eq_true, if_false, List.reverse_cons,
      List.reverse_nil, List.nil_append, List.cons_append]
    rw [fuzzyContrib, sim_abc_abdc, if_pos (by norm_num)]
    rw [one_mul]
    exact min_eq_left (by norm_num)

/-- C4 (amended): the fuzzy branch contributes weight x similarity of the
first token, in the set iteration order, whose similarity reaches 0.80 —
regardless of better tokens later in the order — and keywordMatch is a
deterministic function of its arguments together with that iteration order:
two runs whose set iteration orders coincide produce identical scores. -/
theorem keyword_fuzzy_first_qualifying (kc t : PyStr) (pre rest : List PyStr)
    (w : ℚ)
    (hpre : ∀ s ∈ pre, calculate_levenshtein_similarity kc s < 4/5)
    (ht : 4/5 ≤ calculate_levenshtein_similarity kc t) :
    fuzzyContrib kc (pre ++ t :: rest) w =
      w * calculate_levenshtein_similarity kc t ∧
    ∀ (ans : PyStr) (kws : List PyStr) (wts : Option (List ℚ))
      (wo1 wo2 : List PyStr → List PyStr),
      wo1 (pySplit (preprocess_text ans)) = wo2 (pySplit (preprocess_text ans)) →
      calculate_keyword_match ans kws wts wo1 =
        calculate_keyword_match ans kws wts wo2 := by
  constructor
  · induction pre with
    | nil => rw [List.nil_append, fuzzyContrib, if_pos ht]
    | cons s pre ih =>
      have hs := hpre s (List.mem_cons_self s pre)
      rw [List.cons_append, fuzzyContrib, if_neg (not_le.mpr hs)]
      exact ih (fun u hu => hpre u (List.mem_cons_of_mem s hu))
  · intro ans kws wts wo1 wo2 h
    simp only [calculate_keyword_match, h]

/-- Witness for C4 amended: with keyword "abc" and token order
["xy", "ab", "abdc"], the non-qualifying "xy" is skipped and the loop stops
at "ab" (similarity exactly 0.8), ignoring the better token "abdc". -/
theorem keyword_fuzzy_first_qualifying_witness :
    fuzzyContrib (strToCodes "abc")
      ([strToCodes "xy"] ++ strToCodes "ab" :: [strToCodes "abdc"]) 1 =
      1 * calculate_levenshtein_similarity (strToCodes "abc") (strToCodes "ab") :=
  (keyword_fuzzy_first_qualifying (strToCodes "abc") (strToCodes "ab")
    [strToCodes "xy"] [strToCodes "abdc"] 1
    (by
      intro s hs
      rcases List.mem_singleton.mp hs with rfl
      rw [sim_abc_xy]
      norm_num)
    (by rw [sim_abc_ab])).1

/-- C8: sheet grading sums the obtained marks into totalMarksObtained and
the marks values into fullMarksPossible over all questions of the (question-
number-ordered) list, emits one outcome per question in the same order (so a
sorted input yields a sorted output), and computes
percentage = total / full * 100, or 0 when fullMarksPossible is 0. -/
theorem sheet_aggregation (cos : PyStr → PyStr → ℚ)
    (wo : List PyStr → List PyStr) (cfg : ProbabilisticGradingConfig)
    (questions : List Question) (submitted : List (Nat × PyStr)) :
    (grade_answer_sheet cos wo questions submitted cfg).total_marks_obtained =
      (questions.map (fun q =>
        (grade_question cos wo q (lookup_submitted submitted q.id) cfg).1)).sum ∧
    (grade_answer_sheet cos wo questions submitted cfg).full_marks =
      (questions.map (fun q => (q.marks : ℚ))).sum ∧
    (grade_answer_sheet cos wo questions submitted cfg).grading_details.map
        (fun e => e.question_number) =
      questions.map (fun q => q.question_number) ∧
    (questions.Pairwise (fun a b => a.question_number ≤ b.question_number) →
      (grade_answer_sheet cos wo questions submitted cfg).grading_details.Pairwise
        (fun a b => a.question_number ≤ b.question_number)) ∧
    (0 < (grade_answer_sheet cos wo questions submitted cfg).full_marks →
      (grade_answer_sheet cos wo questions submitted cfg).percentage =
        (grade_answer_sheet cos wo questions submitted cfg).total_marks_obtained /
          (grade_answer_sheet cos wo questions submitted cfg).full_marks * 100) ∧
    ((grade_answer_sheet cos wo questions submitted cfg).full_marks = 0 →
      (grade_answer_sheet cos wo questions submitted cfg).percentage = 0) := by
  refine ⟨?_, ?_, ?_, ?_, ?_, ?_⟩
  · simp only [grade_answer_sheet, List.map_map]
    rfl
  · rfl
  · simp only [grade_answer_sheet, List.map_map]
    rfl
  · intro h
    simp only [grade_answer_sheet]
    rw [List.pairwise_map]
    exact h
  · intro h
    show (if 0 < (grade_answer_sheet cos wo questions submitted cfg).full_marks
      then _ / _ * 100 else 0) = _
    rw [if_pos h]
    rfl
  · intro h
    show (if 0 < (grade_answer_sheet cos wo questions submitted cfg).full_marks
      then _ / _ * 100 else 0) = 0
    rw [if_neg (by rw [h]; exact lt_irrefl 0)]

/-- Witness for C8, Scenario E: an MCQ worth 5 answered correctly and a short
answer worth 10 graded at 7 give total 12, fullMarksPossible 15 and
percentage 80. -/
theorem sheet_aggregation_witness :
    (grade_answer_sheet zeroSim idOrder [demoMCQ, demoShort]
      [(1, strToCodes "A"), (3, strToCodes "x")] cfgNoSim).total_marks_obtained
        = 12 ∧
    (grade_answer_sheet zeroSim idOrder [demoMCQ, demoShort]
      [(1, strToCodes "A"), (3, strToCodes "x")] cfgNoSim).full_marks = 15 ∧
    (grade_answer_sheet zeroSim idOrder [demoMCQ, demoShort]
      [(1, strToCodes "A"), (3, strToCodes "x")] cfgNoSim).percentage = 80 := by
  have h := sheet_aggregation zeroSim idOrder cfgNoSim [demoMCQ, demoShort]
    [(1, strToCodes "A"), (3, strToCodes "x")]
  have hq1 : grade_question zeroSim idOrder demoMCQ
      (lookup_submitted [(1, strToCodes "A"), (3, strToCodes "x")] demoMCQ.id)
      cfgNoSim = ((5 : ℚ), Category.correct) := by
    have hl : lookup_submitted [(1, strToCodes "A"), (3, strToCodes "x")]
        demoMCQ.id = strToCodes "A" := by decide
    rw [hl, grade_question, if_pos (by decide), grade_mcq, if_pos (by decide)]
    norm_num [demoMCQ, Prod.ext_iff]
  have hq2 : grade_question zeroSim idOrder demoShort
      (lookup_submitted [(1, strToCodes "A"), (3, strToCodes "x")] demoShort.id)
      cfgNoSim = ((7 : ℚ), Category.partialMarks) := by
    have hl : lookup_submitted [(1, strToCodes "A"), (3, strToCodes "x")]
        demoShort.id = strToCodes "x" := by decide
    rw [hl, grade_question, if_neg (by decide), if_pos (by decide),
      grade_short_answer, if_neg (by decide)]
    simp only [short_conf_demo]
    rw [if_neg (by norm_num [cfgNoSim]), if_pos (by norm_num [cfgNoSim])]
    norm_num [demoShort, cfgNoSim, Prod.ext_iff]
  have htot : (grade_answer_sheet zeroSim idOrder [demoMCQ, demoShort]
      [(1, strToCodes "A"), (3, strToCodes "x")] cfgNoSim).total_marks_obtained
        = 12 := by
    rw [h.1]
    simp only [List.map_cons, List.map_nil, hq1, hq2]
    norm_num
  have hfull : (grade_answer_sheet zeroSim idOrder [demoMCQ, demoShort]
      [(1, strToCodes "A"), (3, strToCodes "x")] cfgNoSim).full_marks = 15 := by
    rw [h.2.1]
    norm_num [demoMCQ, demoShort]
  refine ⟨htot, hfull, ?_⟩
  rw [h.2.2.2.2.1 (by rw [hfull]; norm_num), htot, hfull]
  norm_num

theorem lev_sim_le_one (a b : PyStr) :
    calculate_levenshtein_similarity a b ≤ 1 := by
  rw [calculate_levenshtein_similarity]
  split
  · exact le_refl 1
  · rename_i h
    have hpos : (0 : ℚ) < (a.length + b.length : ℚ) := by
      exact_mod_cast Nat.pos_of_ne_zero h
    rw [div_le_one hpos]
    have hnn : (0 : ℚ) ≤ (lev2 a b : ℚ) := Nat.cast_nonneg _
    linarith

theorem fuzzyContrib_bounds (kc : PyStr) (ord : List PyStr) (w : ℚ)
    (hw : 0 ≤ w) : 0 ≤ fuzzyContrib kc ord w ∧ fuzzyContrib kc ord w ≤ w := by
  induction ord with
  | nil => simp [fuzzyContrib, hw]
  | cons sw rest ih =>
    rw [fuzzyContrib]
    split
    · rename_i h
      constructor
      · exact mul_nonneg hw (le_trans (by norm_num) h)
      · exact mul_le_of_le_one_right hw (lev_sim_le_one _ _)
    · exact ih

theorem kwContrib_bounds (st : PyStr) (ord : List PyStr) (k : PyStr) (w : ℚ)
    (hw : 0 ≤ w) : 0 ≤ kwContrib st ord k w ∧ kwContrib st ord k w ≤ w := by
  simp only [kwContrib]
  split
  · exact ⟨hw, le_refl w⟩
  · exact fuzzyContrib_bounds _ _ _ hw

theorem zip_snd_take {α β : Type} :
    ∀ (a : List α) (b : List β), (a.zip b).map Prod.snd = b.take a.length
  | [], _ => by simp
  | _ :: _, [] => by simp
  | x :: a, y :: b => by simp [zip_snd_take a b]

theorem sum_map_div (l : List ℚ) (c : ℚ) :
    (l.map (fun w => w / c)).sum = l.sum / c := by
  induction l with
  | nil => simp
  | cons a t ih => simp [ih, add_div]

theorem sum_take_le_sum (l : List ℚ) (n : Nat) (h : ∀ x ∈ l, 0 ≤ x) :
    (l.take n).sum ≤ l.sum := by
  conv_rhs => rw [← List.take_append_drop n l]
  rw [List.sum_append]
  have hd : 0 ≤ (l.drop n).sum :=
    List.sum_nonneg (fun x hx => h x (List.drop_subset n l hx))
  linarith

theorem kwMatch_core_bounds (st : PyStr) (words : List PyStr)
    (kws : List PyStr) (ws : List ℚ)
    (hpos : ∀ x ∈ ws, 0 ≤ x) (hsum : ¬ ws.sum = 0) :
    0 ≤ min (((kws.zip (ws.map (fun w => w / ws.sum))).map
        (fun p => kwContrib st words p.1 p.2)).sum) 1 ∧
    min (((kws.zip (ws.map (fun w => w / ws.sum))).map
        (fun p => kwContrib st words p.1 p.2)).sum) 1 ≤ 1 := by
  have hS : 0 < ws.sum := lt_of_le_of_ne (List.sum_nonneg hpos) (Ne.symm hsum)
  have hwn : ∀ x ∈ ws.map (fun w => w / ws.sum), 0 ≤ x := by
    intro x hx
    rcases List.mem_map.mp hx with ⟨y, hy, rfl⟩
    exact div_nonneg (hpos y hy) (le_of_lt hS)
  have hscore0 : 0 ≤ ((kws.zip (ws.map (fun w => w / ws.sum))).map
      (fun p => kwContrib st words p.1 p.2)).sum := by
    apply List.sum_nonneg
    intro x hx
    rcases List.mem_map.mp hx with ⟨p, hp, rfl⟩
    obtain ⟨p1, p2⟩ := p
    exact (kwContrib_bounds st words p1 p2 (hwn p2 (List.of_mem_zip hp).2)).1
  have hscore1 : ((kws.zip (ws.map (fun w => w / ws.sum))).map
      (fun p => kwContrib st words p.1 p.2)).sum ≤ 1 := by
    have h1 : ((kws.zip (ws.map (fun w => w / ws.sum))).map
        (fun p => kwContrib st words p.1 p.2)).sum ≤
        ((kws.zip (ws.map (fun w => w / ws.sum))).map Prod.snd).sum := by
      apply List.sum_le_sum
      intro p hp
      obtain ⟨p1, p2⟩ := p
      exact (kwContrib_bounds st words p1 p2 (hwn p2 (List.of_mem_zip hp).2)).2
    rw [zip_snd_take] at h1
    have h3 := sum_take_le_sum (ws.map (fun w => w / ws.sum)) kws.length hwn
    have h4 : (ws.map (fun w => w / ws.sum)).sum = 1 := by
      rw [sum_map_div]
      exact div_self hsum
    calc ((kws.zip (ws.map (fun w => w / ws.sum))).map
        (fun p => kwContrib st words p.1 p.2)).sum
        ≤ ((ws.map (fun w => w / ws.sum)).take kws.length).sum := h1
      _ ≤ (ws.map (fun w => w / ws.sum)).sum := h3
      _ = 1 := h4
  exact ⟨le_min hscore0 zero_le_one, min_le_right _ _⟩

/-- C9 (counterexample): the claim fails in two ways at concrete inputs — a
whitespace-only answer with the keyword "the" (which normalizes to the empty
string) scores 1, not 0; and with supplied weights [-1, 2] (sum 1) on answer
"abc" with keywords ["abc", "xyz"] the score is -1, outside [0, 1]. -/
theorem keyword_match_boundary_cex :
    calculate_keyword_match (strToCodes " ") [strToCodes "the"] none idOrder = 1 ∧
    calculate_keyword_match (strToCodes "abc") [strToCodes "abc", strToCodes "xyz"]
      (some [-1, 2]) idOrder = -1 := by
  constructor
  · rw [kwMatch_single_none _ _ _ (by decide)]
    simp only [kwContrib]
    rw [show preprocess_text (strToCodes "the") = ([] : PyStr) from by decide,
      pyIn_nil_left]
    norm_num
  · rw [calculate_keyword_match, if_neg (by decide)]
    dsimp only
    rw [if_neg (by norm_num)]
    simp only [List.map_cons, List.map_nil, List.zip_cons_cons, List.zip_nil_right]
    simp only [kwContrib]
    rw [show pyIn (preprocess_text (strToCodes "abc"))
        (preprocess_text (strToCodes "abc")) = true from by decide]
    rw [show pyIn (preprocess_text (strToCodes "xyz"))
        (preprocess_text (strToCodes "abc")) = false from by decide]
    simp only [if_true, Bool.false_eq_true, if_false]
    have hfz : fuzzyContrib (preprocess_text (strToCodes "xyz"))
        (idOrder (pySplit (preprocess_text (strToCodes "abc"))))
        (2 / ([(-1 : ℚ), 2]).sum) = 0 := by
      rw [show idOrder (pySplit (preprocess_text (strToCodes "abc"))) =
        [strToCodes "abc"] from by decide]
      have hsim : calculate_levenshtein_similarity
          (preprocess_text (strToCodes "xyz")) (strToCodes "abc") = 0 := by
        rw [calculate_levenshtein_similarity, if_neg (by decide)]
        rw [show lev2 (preprocess_text (strToCodes "xyz")) (strToCodes "abc") = 6
          from by decide]
        rw [show (preprocess_text (strToCodes "xyz")).length = 3 from by decide]
        rw [show (strToCodes "abc").length = 3 from by decide]
        norm_num
      rw [fuzzyContrib, hsim, if_neg (by norm_num), fuzzyContrib]
    rw [hfz]
    norm_num [List.sum_cons, List.sum_nil, min_def]

/-- C9 (amended): keywordMatch returns 0 when the keyword list is empty, when
the answer is the empty string, and when explicitly supplied weights sum
to 0; a blank answer (normalizing to the empty string) also yields 0
provided no keyword itself normalizes to the empty string; and the result
lies in [0, 1] whenever the weights are defaulted or all supplied weights
are nonnegative. -/
theorem keyword_match_boundaries (ans : PyStr) (kws : List PyStr)
    (weights : Option (List ℚ)) (wo : List PyStr → List PyStr) :
    (kws = [] → calculate_keyword_match ans kws weights wo = 0) ∧
    (ans = [] → calculate_keyword_match ans kws weights wo = 0) ∧
    (∀ ws0, weights = some ws0 → ws0.sum = 0 →
      calculate_keyword_match ans kws weights wo = 0) ∧
    ((∀ l t, t ∈ wo l → t ∈ l) → preprocess_text ans = [] →
      (∀ k ∈ kws, preprocess_text k ≠ []) →
      calculate_keyword_match ans kws weights wo = 0) ∧
    ((weights = none ∨ ∃ ws0, weights = some ws0 ∧ ∀ x ∈ ws0, 0 ≤ x) →
      0 ≤ calculate_keyword_match ans kws weights wo ∧
      calculate_keyword_match ans kws weights wo ≤ 1) := by
  refine ⟨?_, ?_, ?_, ?_, ?_⟩
  · intro h
    rw [calculate_keyword_match.eq_def, if_pos (Or.inl h)]
  · intro h
    rw [calculate_keyword_match.eq_def, if_pos (Or.inr h)]
  · intro ws0 h hsum
    rw [calculate_keyword_match.eq_def]
    split
    · rfl
    · subst h
      dsimp only
      rw [if_pos hsum]
  · intro hwo hblank hkws
    rw [calculate_keyword_match.eq_def]
    split
    · rfl
    · dsimp only
      rw [hblank]
      have hwonil : wo (pySplit ([] : PyStr)) = [] := by
        apply List.eq_nil_iff_forall_not_mem.mpr
        intro t ht
        have h0 : pySplit ([] : PyStr) = [] := rfl
        have := hwo _ t ht
        rw [h0] at this
        exact List.not_mem_nil t this
      rw [hwonil]
      split
      · rfl
      · have hz : ∀ x ∈ ((kws.zip ((match weights with
            | none => List.replicate kws.length ((1 : ℚ) / kws.length)
            | some ws => ws).map (fun w => w / (match weights with
            | none => List.replicate kws.length ((1 : ℚ) / kws.length)
            | some ws => ws).sum))).map
            (fun p => kwContrib [] [] p.1 p.2)), x = 0 := by
          intro x hx
          rcases List.mem_map.mp hx with ⟨p, hp, rfl⟩
          obtain ⟨p1, p2⟩ := p
          have hk := hkws p1 (List.of_mem_zip hp).1
          simp only [kwContrib]
          rw [pyIn_nil_right hk]
          simp [fuzzyContrib]
        rw [List.sum_eq_zero hz]
        exact min_eq_left zero_le_one
  · intro hwts
    rw [calculate_keyword_match.eq_def]
    split
    · norm_num
    · rename_i hguard
      rcases hwts with h | ⟨ws0, h, hpos⟩ <;> subst h <;> dsimp only
      · split
        · norm_num
        · rename_i hsum
          apply kwMatch_core_bounds
          · intro x hx
            rw [List.eq_of_mem_replicate hx]
            positivity
          · exact hsum
      · split
        · norm_num
        · rename_i hsum
          exact kwMatch_core_bounds _ _ _ _ hpos hsum

/-- Witness for C9 amended: empty keyword list gives 0, all-zero weights give
0, and a plain exact-match call stays within [0, 1]. -/
theorem keyword_match_boundaries_witness :
    calculate_keyword_match (strToCodes "water") [] none idOrder = 0 ∧
    calculate_keyword_match (strToCodes "water") [strToCodes "x"] (some [0])
      idOrder = 0 ∧
    (0 ≤ calculate_keyword_match (strToCodes "cat") [strToCodes "cat"] none
        idOrder ∧
      calculate_keyword_match (strToCodes "cat") [strToCodes "cat"] none
        idOrder ≤ 1) := by
  refine ⟨?_, ?_, ?_⟩
  · exact (keyword_match_boundaries (strToCodes "water") [] none idOrder).1 rfl
  · exact (keyword_match_boundaries (strToCodes "water") [strToCodes "x"]
      (some [0]) idOrder).2.2.1 [0] rfl (by norm_num)
  · exact (keyword_match_boundaries (strToCodes "cat") [strToCodes "cat"] none
      idOrder).2.2.2.2 (Or.inl rfl)

end AutoGrader
